import Mathlib

/-
  Shallow embedding of the core of `codebase-indexer-cli`
  (src/lib/utils.js, src/lib/indexer-core.js, src/lib/config-manager.js,
  src/lib/indexer-query.js).

  JavaScript strings are modelled as `List Char`; JavaScript objects used as
  string-keyed maps are modelled as association lists with unique keys in
  insertion order, together with the ECMAScript own-property enumeration
  order (`jsEntries`: canonical array-index keys first, in ascending numeric
  order, then the remaining keys in insertion order).
  `toLowerCase`, the `\s` and `\w` regex classes are modelled on the ASCII
  range, which covers every string the repository's data and the concrete
  test inputs use.
-/

namespace CodebaseIndexer

abbrev Str := List Char

/-- Chars of a Lean string literal, used to write JS string literals. -/
def chars (s : String) : Str := s.data

/-- ASCII model of `String.prototype.toLowerCase`. -/
def jsToLower (c : Char) : Char :=
  if 'A' ≤ c ∧ c ≤ 'Z' then Char.ofNat (c.toNat + 32) else c

/-- Lowercase a whole string, `s.toLowerCase()`. -/
def lowerStr (s : Str) : Str := s.map jsToLower

/-- JS `String.prototype.startsWith` viewed on char lists. -/
def startsWithStr : Str → Str → Bool
  | [], _ => true
  | _ :: _, [] => false
  | a :: as, b :: bs => a = b && startsWithStr as bs

/-- JS `String.prototype.endsWith` viewed on char lists. -/
def endsWithStr (suffix s : Str) : Bool :=
  startsWithStr suffix.reverse s.reverse

/-- JS `String.prototype.includes`: `needle` occurs somewhere in `haystack`. -/
def isSubstr : Str → Str → Bool
  | needle, [] => needle.isEmpty
  | needle, c :: t => startsWithStr needle (c :: t) || isSubstr needle t

/-- The character class `\w` of JS regexes (ASCII word character). -/
def isWordChar (c : Char) : Bool :=
  ('a' ≤ c ∧ c ≤ 'z') ∨ ('A' ≤ c ∧ c ≤ 'Z') ∨ ('0' ≤ c ∧ c ≤ '9') ∨ c = '_'

/-- The character class `\s` of JS regexes, on its ASCII members. -/
def isJsWs (c : Char) : Bool :=
  c = ' ' ∨ c = '\t' ∨ c = '\n' ∨ c = '\r' ∨ c = '\x0b' ∨ c = '\x0c'

/-- Helper for `lastChunk`: walk the string keeping the chunk built since the
last separator. -/
def lastChunkGo (isSep : Char → Bool) : Str → Str → Str
  | acc, [] => acc
  | acc, c :: t => if isSep c then lastChunkGo isSep [] t else lastChunkGo isSep (acc ++ [c]) t

/-- The last element of `s.split(sep)`: the chunk after the last separator
(the whole string when no separator occurs), i.e. `s.split(sep).pop()`. -/
def lastChunk (isSep : Char → Bool) (s : Str) : Str := lastChunkGo isSep [] s

/-- `filePath.split(/[\/\\]/).pop()` from `Utils.matchGlob`: the final path
segment. -/
def lastSegment (filePath : Str) : Str :=
  lastChunk (fun c => c = '/' ∨ c = '\\') filePath

/-- `pattern.split('.').pop()` from `Utils.matchGlob`. -/
def afterLastDot (pattern : Str) : Str := lastChunk (fun c => c = '.') pattern

/-- Denotation of `pattern.match(/\*\*\/\*\.\w+$/) !== null`: the pattern ends
in `**/*.` followed by at least one word character.  Because `.` is not a word
character, the matched `\w+` run is exactly the maximal trailing run of word
characters, so the test is: that run is nonempty and the part before it ends
with the five characters `**/*.`. -/
def extPatternCheck (pattern : Str) : Bool :=
  let run := (pattern.reverse.takeWhile isWordChar).reverse
  let stem := (pattern.reverse.dropWhile isWordChar).reverse
  !run.isEmpty && endsWithStr (chars "**/*.") stem

/-- Structural worker for `replaceAllStr`; `fuel` bounds the number of steps
so that the recursion is structural (and hence kernel-reducible).  Each step
consumes at least one character, so `fuel = s.length` never runs out. -/
def replaceAllStrGo (pat repl : Str) : Nat → Str → Str
  | _, [] => []
  | 0, s => s
  | fuel + 1, c :: t =>
    match pat with
    | [] => c :: t
    | p :: ps =>
      if startsWithStr (p :: ps) (c :: t) then
        repl ++ replaceAllStrGo (p :: ps) repl fuel (t.drop ps.length)
      else
        c :: replaceAllStrGo (p :: ps) repl fuel t

/-- `str.replace(/lit/g, repl)` for a literal (regex-metacharacter-free up to
escaping) pattern: left-to-right, non-overlapping, replacements not rescanned.
The `pat = []` case never arises in this code base. -/
def replaceAllStr (pat repl s : Str) : Str := replaceAllStrGo pat repl s.length s

/-- The placeholder string used by `Utils.matchGlob`. -/
def doubleStarMarker : Str := chars "§DOUBLESTAR§"

/-- The regex source built by the general branch of `Utils.matchGlob`:
`pattern.replace(/\*\*/g,'§DOUBLESTAR§').replace(/\*/g,'[^/]*')
 .replace(/§DOUBLESTAR§/g,'.*').replace(/\?/g,'.').replace(/\./g,'\\.')`. -/
def globToRegex (pattern : Str) : Str :=
  replaceAllStr (chars ".") (chars "\\.")
    (replaceAllStr (chars "?") (chars ".")
      (replaceAllStr doubleStarMarker (chars ".*")
        (replaceAllStr (chars "*") (chars "[^/]*")
          (replaceAllStr (chars "**") doubleStarMarker pattern))))

/-- Atoms of the regex fragment that `globToRegex` can emit: an (escaped)
literal character, `.` (any character except a line terminator), and the
class `[^/]`. -/
inductive RAtom where
  | lit (c : Char)
  | anyChar
  | noSlash
deriving DecidableEq, Repr

/-- One regex item: an atom, possibly under a Kleene star. -/
structure RItem where
  atom : RAtom
  star : Bool
deriving DecidableEq, Repr

/-- Regex metacharacters that cannot appear as a bare literal. A source using
them outside the handled forms is rejected (`none`); the regexes produced by
`globToRegex` from the patterns in this repository never contain them bare. -/
def isRegexMeta (c : Char) : Bool :=
  c = '*' ∨ c = '+' ∨ c = '?' ∨ c = '(' ∨ c = ')' ∨ c = '[' ∨ c = ']' ∨
  c = '\\' ∨ c = '^' ∨ c = '$' ∨ c = '|'

/-- Parse the regex fragment emitted by `globToRegex` into items. -/
def parseRegex : Str → Option (List RItem)
  | [] => some []
  | '\\' :: c :: '*' :: rest => (parseRegex rest).map (⟨.lit c, true⟩ :: ·)
  | ['\\', c] => some [⟨.lit c, false⟩]
  | '\\' :: c :: d :: rest =>
    (parseRegex (d :: rest)).map (⟨.lit c, false⟩ :: ·)
  | '[' :: '^' :: '/' :: ']' :: '*' :: rest => (parseRegex rest).map (⟨.noSlash, true⟩ :: ·)
  | '[' :: '^' :: '/' :: ']' :: rest => (parseRegex rest).map (⟨.noSlash, false⟩ :: ·)
  | '.' :: '*' :: rest => (parseRegex rest).map (⟨.anyChar, true⟩ :: ·)
  | '.' :: rest => (parseRegex rest).map (⟨.anyChar, false⟩ :: ·)
  | c :: '*' :: rest =>
    if isRegexMeta c then none else (parseRegex rest).map (⟨.lit c, true⟩ :: ·)
  | [c] => if isRegexMeta c then none else some [⟨.lit c, false⟩]
  | c :: d :: rest =>
    if isRegexMeta c then none else (parseRegex (d :: rest)).map (⟨.lit c, false⟩ :: ·)

/-- Whether a regex atom matches one character. `.` does not match line
terminators (no `s` flag is set in the source). -/
def matchAtom : RAtom → Char → Bool
  | .lit c', c => c' = c
  | .anyChar, c => ¬(c = '\n' ∨ c = '\r')
  | .noSlash, c => c ≠ '/'

/-- Structural worker for `rmatch`: `fuel` bounds the recursion depth (the
measure `s.length + items.length` strictly decreases at every call, so
starting from that sum the `fuel = 0` branch is never taken). -/
def rmatchGo : Nat → List RItem → Str → Bool
  | _, [], s => s.isEmpty
  | 0, _ :: _, _ => false
  | fuel + 1, ⟨a, false⟩ :: rs, s =>
    match s with
    | [] => false
    | c :: cs => matchAtom a c && rmatchGo fuel rs cs
  | fuel + 1, ⟨a, true⟩ :: rs, s =>
    rmatchGo fuel rs s ||
      (match s with
       | [] => false
       | c :: cs => matchAtom a c && rmatchGo fuel (⟨a, true⟩ :: rs) cs)

/-- Anchored match of an item list against a string, the denotation of
`new RegExp('^' + src + '$').test(s)` for the fragment above. -/
def rmatch (items : List RItem) (s : Str) : Bool :=
  rmatchGo (s.length + items.length) items s

/-- `Utils.matchGlob(filePath, pattern)` from src/lib/utils.js (the copy whose
lines 240-259 are cited as src/lib/indexer-core.js:240-259).  The special
branch handles patterns ending in `**/*.<ext>`; the general branch compiles
the pattern to a regex and tests it anchored at both ends.  A generated
regex outside the fragment `parseRegex` understands would throw in JS; here
it yields `false` (it never occurs for the patterns of this repository). -/
def matchGlob (filePath pattern : Str) : Bool :=
  if extPatternCheck pattern then
    let ext := afterLastDot pattern
    endsWithStr ('.' :: ext) (lastSegment filePath)
  else
    match parseRegex (globToRegex pattern) with
    | some items => rmatch items filePath
    | none => false

/-- The variant of `matchGlob` in src/lib/utils-fix.js: identical except that
its final `.replace(/\./g, '\.')` uses the two-character JS string `'\.'`,
which denotes a single dot, so the final replacement is the identity and the
`.*` produced from `**` survives. -/
def globToRegexFix (pattern : Str) : Str :=
  replaceAllStr (chars ".") (chars ".")
    (replaceAllStr (chars "?") (chars ".")
      (replaceAllStr doubleStarMarker (chars ".*")
        (replaceAllStr (chars "*") (chars "[^/]*")
          (replaceAllStr (chars "**") doubleStarMarker pattern))))

/-- `matchGlob` as written in src/lib/utils-fix.js. -/
def matchGlobFix (filePath pattern : Str) : Bool :=
  if extPatternCheck pattern then
    let ext := afterLastDot pattern
    endsWithStr ('.' :: ext) (lastSegment filePath)
  else
    match parseRegex (globToRegexFix pattern) with
    | some items => rmatch items filePath
    | none => false

/-! JS objects as string-keyed maps: association lists in insertion order. -/

/-- Property read `l[k]`. -/
def objGet {β : Type} : List (Str × β) → Str → Option β
  | [], _ => none
  | (k', v) :: t, k => if k' = k then some v else objGet t k

/-- Property write `l[k] = v`: overwrite in place, or append a new key. -/
def objSet {β : Type} : List (Str × β) → Str → β → List (Str × β)
  | [], k, v => [(k, v)]
  | (k', v') :: t, k, v => if k' = k then (k, v) :: t else (k', v') :: objSet t k v

/-- Property removal `delete l[k]` (keys are unique in a JS object). -/
def objDelete {β : Type} : List (Str × β) → Str → List (Str × β)
  | [], _ => []
  | (k', v') :: t, k => if k' = k then t else (k', v') :: objDelete t k

/-- Numeric value of an all-digit key. -/
def digitsToNat (w : Str) : Nat :=
  w.foldl (fun n c => n * 10 + (c.toNat - 48)) 0

/-- Whether a key is a canonical array index in the ECMAScript sense:
all digits, no leading zero (except `0` itself), and at most 2^32 - 2. -/
def isArrayIndexKey (w : Str) : Bool :=
  !w.isEmpty && w.all (fun c => '0' ≤ c ∧ c ≤ '9') &&
    (w = chars "0" || w.head? ≠ some '0') &&
    decide (digitsToNat w ≤ 4294967294)

/-- Insert into a list ascending by a `Nat` key. -/
def insertAscNat {α : Type} (key : α → Nat) (x : α) : List α → List α
  | [] => [x]
  | y :: ys => if key y ≤ key x then y :: insertAscNat key x ys else x :: y :: ys

/-- Insertion sort ascending by a `Nat` key. -/
def sortAscNat {α : Type} (key : α → Nat) : List α → List α
  | [] => []
  | x :: xs => insertAscNat key x (sortAscNat key xs)

/-- ECMAScript own-property enumeration order, as used by `Object.entries`,
`Object.values` and `JSON.stringify`: canonical array-index keys first in
ascending numeric order, then the remaining keys in insertion order. -/
def jsEntries {β : Type} (l : List (Str × β)) : List (Str × β) :=
  sortAscNat (fun p => digitsToNat p.1) (l.filter fun p => isArrayIndexKey p.1) ++
    l.filter fun p => !isArrayIndexKey p.1

/-- Stable insertion descending by a key: an element is placed before every
element of strictly smaller key and after every element of greater-or-equal
key reached so far, which gives exactly the stable descending order that
`Array.prototype.sort` with comparator `(a, b) => key(b) - key(a)` produces. -/
def insertDescBy {α β : Type} [LinearOrder β] (key : α → β) (x : α) : List α → List α
  | [] => [x]
  | y :: ys => if key x < key y then y :: insertDescBy key x ys else x :: y :: ys

/-- Stable descending sort by a key. -/
def sortDescBy {α β : Type} [LinearOrder β] (key : α → β) : List α → List α
  | [] => []
  | x :: xs => insertDescBy key x (sortDescBy key xs)

/-! The keyword extractor, `Utils.extractKeywords` (src/lib/utils.js 312-341). -/

/-- Helper for `splitRuns`: accumulate the current run (reversed). -/
def splitRunsGo (isSep : Char → Bool) : Str → Str → List Str
  | acc, [] => if acc.isEmpty then [] else [acc.reverse]
  | acc, c :: t =>
    if isSep c then
      if acc.isEmpty then splitRunsGo isSep [] t
      else acc.reverse :: splitRunsGo isSep [] t
    else splitRunsGo isSep (c :: acc) t

/-- The nonempty chunks of `s.split(/sep+/)`.  JS `split(/\s+/)` additionally
emits empty strings at the borders; they are removed by the length filter
that always follows in this code base, so they are dropped here directly. -/
def splitRuns (isSep : Char → Bool) (s : Str) : List Str := splitRunsGo isSep [] s

/-- `text.toLowerCase().replace(/[^a-z0-9\s]/g, ' ').split(/\s+/)
.filter(w => w.length > 3)` — the token stream of `extractKeywords`. -/
def tokenize (text : Str) : List Str :=
  let cleaned := (text.map jsToLower).map fun c =>
    if (('a' ≤ c ∧ c ≤ 'z') ∨ ('0' ≤ c ∧ c ≤ '9') : Bool) || isJsWs c then c else ' '
  (splitRuns isJsWs cleaned).filter fun w => 3 < w.length

/-- `freq[word] = (freq[word] || 0) + 1`. -/
def bumpFreq (l : List (Str × Nat)) (w : Str) : List (Str × Nat) :=
  match objGet l w with
  | some n => objSet l w (n + 1)
  | none => l ++ [(w, 1)]

/-- The frequency object of `extractKeywords`: keys appear in first-seen
order. -/
def buildFreq (words : List Str) : List (Str × Nat) := words.foldl bumpFreq []

/-- The stop-word set of `extractKeywords` (the source lists `been` and
`have` twice; the set collapses the duplicates). -/
def stopWords : List Str :=
  [chars "this", chars "that", chars "with", chars "from", chars "have",
   chars "will", chars "would", chars "could", chars "should", chars "about",
   chars "which", chars "their", chars "there", chars "where", chars "when",
   chars "what", chars "them", chars "then", chars "than", chars "these",
   chars "those", chars "some", chars "into", chars "only", chars "also",
   chars "over", chars "such", chars "just", chars "more", chars "very",
   chars "been", chars "were", chars "they", chars "make", chars "after",
   chars "before", chars "through"]

/-- `Utils.extractKeywords(text, maxKeywords = 20)`: tokenize, count
frequencies, iterate the frequency object in enumeration order, drop stop
words, stable-sort by descending count, keep the first `maxKeywords`
entries.  The result list is the entry list of the returned object in
construction order; iterating that object applies `jsEntries` once more. -/
def extractKeywords (text : Str) (maxKeywords : Nat := 20) : List (Str × Nat) :=
  let words := tokenize text
  let freq := buildFreq words
  let filtered := (jsEntries freq).filter fun p => !stopWords.contains p.1
  (sortDescBy (fun p => p.2) filtered).take maxKeywords

/-- First-seen order of the distinct words of a list (formalising the claim's
phrase "the order in which the words first occur in the text"). -/
def dedupFirstSeen (ws : List Str) : List Str :=
  ws.foldl (fun acc w => if w ∈ acc then acc else acc ++ [w]) []

/-! Path helpers from src/lib/utils.js. -/

/-- `s.split(sep)` keeping empty chunks, as JS `String.prototype.split` with a
single-character separator. -/
def splitOnChar (sep : Char) : Str → List Str
  | [] => [[]]
  | c :: t =>
    if c = sep then [] :: splitOnChar sep t
    else
      match splitOnChar sep t with
      | h :: r => (c :: h) :: r
      | [] => [[c]]

/-- `Utils.countLines(content) = content.split('\n').length`. -/
def countLines (content : Str) : Nat := (splitOnChar '\n' content).length

/-- `path.posix.normalize`: collapse repeated separators, resolve `.` and
`..`, keep a trailing separator, return `.` for an empty result. -/
def normalizePosix (p : Str) : Str :=
  if p.isEmpty then chars "."
  else
    let isAbs := p.head? = some '/'
    let trailing := endsWithStr (chars "/") p
    let segs := (splitOnChar '/' p).filter fun s => !s.isEmpty
    let stack := segs.foldl (fun st seg =>
      if seg = chars "." then st
      else if seg = chars ".." then
        match st with
        | h :: t => if h ≠ chars ".." then t else (chars "..") :: h :: t
        | [] => if isAbs then [] else [chars ".."]
      else seg :: st) []
    let body := List.intercalate (chars "/") stack.reverse
    if body.isEmpty then
      if isAbs then chars "/" else if trailing then chars "./" else chars "."
    else
      (if isAbs then chars "/" ++ body else body) ++
        (if trailing then chars "/" else [])

/-- `Utils.normalizePath(filePath) =
path.normalize(filePath).replace(/\\/g, '/')` (POSIX `path.normalize`). -/
def normalizePath (filePath : Str) : Str :=
  replaceAllStr (chars "\\") (chars "/") (normalizePosix filePath)

/-- `path.extname(p)` (POSIX): the suffix of the final segment from its last
dot, empty when the segment has no dot, starts with its only dot, or is `.`
or `..`. -/
def extname (p : Str) : Str :=
  let base := lastChunk (fun c => c = '/') p
  if base = chars "." ∨ base = chars ".." then []
  else
    let afterRev := base.reverse.takeWhile fun c => c ≠ '.'
    if afterRev.length = base.length then []
    else if base.length - afterRev.length - 1 = 0 then []
    else '.' :: afterRev.reverse

/-- `Utils.getExtension(filePath) = path.extname(filePath).toLowerCase()`. -/
def getExtension (filePath : Str) : Str := lowerStr (extname filePath)

/-- The extension blacklist of `Utils.isBinaryFile`. -/
def binaryExtensions : List Str :=
  [chars ".jpg", chars ".jpeg", chars ".png", chars ".gif", chars ".bmp",
   chars ".ico", chars ".svg", chars ".pdf", chars ".zip", chars ".tar",
   chars ".gz", chars ".rar", chars ".7z", chars ".exe", chars ".dll",
   chars ".so", chars ".dylib", chars ".bin", chars ".class", chars ".jar",
   chars ".war", chars ".ear", chars ".db", chars ".sqlite", chars ".mdb",
   chars ".mp3", chars ".mp4", chars ".avi", chars ".mov", chars ".wav",
   chars ".ttf", chars ".woff", chars ".woff2", chars ".eot"]

/-- `Utils.isBinaryFile(filePath)`. -/
def isBinaryFile (filePath : Str) : Bool :=
  binaryExtensions.contains (getExtension filePath)

/-- `Utils.matchesAnyPattern(filePath, patterns)`. -/
def matchesAnyPattern (filePath : Str) (patterns : List Str) : Bool :=
  let normalizedPath := normalizePath filePath
  patterns.any fun pattern => matchGlob normalizedPath pattern

/-! The index store and pipeline, `IndexerCore` (src/lib/indexer-core.js). -/

/-- The result of `fs.statSync` as used here: byte size and
`mtime.toISOString()`. -/
structure Stats where
  size : Nat
  mtimeIso : Str
deriving DecidableEq, Repr

/-- One entry of `db.files` as built by `IndexerCore.indexFile`. -/
structure FileRecord where
  file_path : Str
  content : Str
  hash : Str
  size : Nat
  lines : Nat
  extension : Str
  modified_at : Str
  indexed_at : Str
deriving DecidableEq, Repr

/-- The persisted JSON document of `IndexerCore`:
`{ files: {}, keywords: {}, metadata: {}, version: '1.0.0' }`. -/
structure Database where
  files : List (Str × FileRecord)
  keywords : List (Str × List (Str × Nat))
  metadata : List (Str × Str)
  version : Str
deriving DecidableEq, Repr

/-- The empty database `IndexerCore.loadDatabase` falls back to. -/
def emptyDbCore : Database :=
  { files := [], keywords := [], metadata := [], version := chars "1.0.0" }

/-- `IndexerCore.loadDatabase()`: the database file may be missing
(`dbExists = false`), unreadable (`readResult = .error`), or fail to parse
(`parse data = .error`); each failure yields the empty database.  `parse`
stands for `JSON.parse` restricted to documents that decode to a
`Database`. -/
def loadDatabaseCore (dbExists : Bool) (readResult : Except Str Str)
    (parse : Str → Except Str Database) : Database :=
  if dbExists then
    match readResult with
    | .ok data =>
      match parse data with
      | .ok db => db
      | .error _ => emptyDbCore
    | .error _ => emptyDbCore
  else emptyDbCore

/-- The result value of `IndexerCore.indexFile`. -/
inductive IndexResult where
  | unchanged (path : Str)
  | indexed (path : Str) (size : Nat)
  | error (path : Str) (message : Str)
deriving DecidableEq, Repr

/-- `IndexerCore.indexFile(filePath, projectPath)`.  Filesystem effects are
passed in: `readResult` is `fs.readFileSync(filePath, 'utf8')`, `statsResult`
is `fs.statSync(filePath)` (either may throw, modelled by `.error`),
`relativePath` is `Utils.getRelativePath(projectPath, filePath)`, `hashFn` is
the MD5 digest `Utils.getHash` (used only as a deterministic function of the
content), `now` is `Utils.getTimestamp()`.  Returns the new database, the
result value, and whether `saveDatabase()` was called. -/
def indexFile (hashFn : Str → Str) (now : Str) (readResult : Except Str Str)
    (statsResult : Except Str Stats) (relativePath filePath : Str)
    (db : Database) : Database × IndexResult × Bool :=
  match readResult with
  | .error e => (db, .error filePath e, false)
  | .ok content =>
    match statsResult with
    | .error e => (db, .error filePath e, false)
    | .ok stats =>
      let hash := hashFn content
      if (objGet db.files relativePath).any fun existing => existing.hash = hash then
        (db, .unchanged relativePath, false)
      else
        let record : FileRecord :=
          { file_path := relativePath
            content := content
            hash := hash
            size := stats.size
            lines := countLines content
            extension := getExtension filePath
            modified_at := stats.mtimeIso
            indexed_at := now }
        let db' := { db with
          files := objSet db.files relativePath record
          keywords := objSet db.keywords relativePath (extractKeywords content) }
        (db', .indexed relativePath stats.size, true)

/-- `IndexerCore.removeFile(filePath, projectPath)`: delete the file and
keyword entries for `relativePath`, save only if the file entry existed.
Returns the new database, `existed`, and whether `saveDatabase()` was
called. -/
def removeFile (relativePath : Str) (db : Database) : Database × Bool × Bool :=
  let existed := (objGet db.files relativePath).isSome
  let db' := { db with
    files := objDelete db.files relativePath
    keywords := objDelete db.keywords relativePath }
  (db', existed, existed)

/-- `IndexerCore.getAllFiles() = Object.values(this.db.files)` (enumeration
order). -/
def getAllFiles (db : Database) : List FileRecord :=
  (jsEntries db.files).map fun p => p.2

/-! Configuration, `ConfigManager` (src/lib/config-manager.js). -/

/-- The per-project configuration slice `shouldIndexFile` reads
(`include`, `exclude`, `maxFileSize`; field names suffixed to avoid the Lean
keyword `include`). -/
structure ProjectConfig where
  includePatterns : List Str
  excludePatterns : List Str
  maxFileSize : Nat
deriving DecidableEq, Repr

/-- The `defaults` slice of `ConfigManager.getDefaultConfig()`. -/
def defaultProjectConfig : ProjectConfig where
  includePatterns :=
    [chars "**/*.js", chars "**/*.jsx", chars "**/*.ts", chars "**/*.tsx",
     chars "**/*.java", chars "**/*.cs", chars "**/*.py", chars "**/*.rb",
     chars "**/*.php", chars "**/*.go", chars "**/*.rs", chars "**/*.cpp",
     chars "**/*.c", chars "**/*.h", chars "**/*.html", chars "**/*.htm",
     chars "**/*.css", chars "**/*.scss", chars "**/*.sass", chars "**/*.json",
     chars "**/*.xml", chars "**/*.yaml", chars "**/*.yml", chars "**/*.jsp",
     chars "**/*.jds", chars "**/*.jdc", chars "**/*.sql", chars "**/*.md",
     chars "**/*.txt"]
  excludePatterns :=
    [chars "**/node_modules/**", chars "**/target/**", chars "**/bin/**",
     chars "**/obj/**", chars "**/.git/**", chars "**/.svn/**",
     chars "**/.hg/**", chars "**/dist/**", chars "**/build/**",
     chars "**/*.class", chars "**/*.jar", chars "**/*.war", chars "**/*.ear",
     chars "**/*.dll", chars "**/*.exe", chars "**/*.so", chars "**/*.dylib",
     chars "**/*.o", chars "**/*.a", chars "**/*.gif", chars "**/*.png",
     chars "**/*.jpg", chars "**/*.jpeg", chars "**/*.svg", chars "**/*.ico",
     chars "**/*.pdf", chars "**/*.zip", chars "**/*.tar", chars "**/*.gz",
     chars "**/*.rar", chars "**/*.7z", chars "**/logs/**", chars "**/log/**",
     chars "**/temp/**", chars "**/tmp/**", chars "**/.codebase-index/**",
     chars "**/.indexer/**"]
  maxFileSize := 5242880

/-- `ConfigManager.shouldIndexFile(filePath, projectConfig)`.
`statsResult` is the value of `Utils.getStatsSafe(filePath)` (`null` on a
stat failure, modelled by `none`). -/
def shouldIndexFile (statsResult : Option Stats) (filePath : Str)
    (projectConfig : ProjectConfig) : Bool :=
  let normalizedPath := normalizePath filePath
  if isBinaryFile normalizedPath then false
  else if matchesAnyPattern normalizedPath projectConfig.excludePatterns then false
  else if matchesAnyPattern normalizedPath projectConfig.includePatterns then
    match statsResult with
    | some stats => decide (stats.size ≤ projectConfig.maxFileSize)
    | none => false
  else false

/-! The query engine, `IndexerQuery` (src/lib/indexer-query.js). -/

/-- The database shape `IndexerQuery.loadDatabase` falls back to:
`{ files: {}, keywords: {}, metadata: {} }` (no `version` field). -/
structure QueryDb where
  files : List (Str × FileRecord)
  keywords : List (Str × List (Str × Nat))
  metadata : List (Str × Str)
deriving DecidableEq, Repr

/-- The empty query-side database. -/
def emptyDbQuery : QueryDb := { files := [], keywords := [], metadata := [] }

/-- `IndexerQuery.loadDatabase()`: missing, unreadable or unparseable store
files all yield the empty database. -/
def loadDatabaseQuery (dbExists : Bool) (readResult : Except Str Str)
    (parse : Str → Except Str QueryDb) : QueryDb :=
  if dbExists then
    match readResult with
    | .ok data =>
      match parse data with
      | .ok db => db
      | .error _ => emptyDbQuery
    | .error _ => emptyDbQuery
  else emptyDbQuery

/-- The return value of `Utils.createSnippet`. -/
structure Snippet where
  lineNumber : Nat
  snippet : Str
  context : Str
deriving DecidableEq, Repr

/-- Decimal digits of a natural number, for the `Lines a-b` context string. -/
def natToStr (n : Nat) : Str := (toString n).data

/-- `Utils.createSnippet(content, searchTerm, contextLines = 2)`
(src/lib/utils.js 467-490). -/
def createSnippet (content searchTerm : Str) (contextLines : Nat := 2) : Snippet :=
  let lines := splitOnChar '\n' content
  let searchLower := lowerStr searchTerm
  match lines.findIdx? (fun line => isSubstr searchLower (lowerStr line)) with
  | some i =>
    let start := i - contextLines
    let stop := min lines.length (i + contextLines + 1)
    { lineNumber := i + 1
      snippet := List.intercalate (chars "\n") ((lines.take stop).drop start)
      context := chars "Lines " ++ natToStr (start + 1) ++ chars "-" ++ natToStr stop }
  | none =>
    { lineNumber := 1
      snippet := List.intercalate (chars "\n") (lines.take 5)
      context := chars "Lines 1-5" }

/-- One element of the list `IndexerQuery.search` returns. -/
structure SearchResult where
  filePath : Str
  score : ℚ
  snippet : Str
  lineNumber : Nat
  matchType : Str
deriving DecidableEq, Repr

/-- The score accumulation of the `search` loop body for one file, written as
the source writes it: start at 0, add 0.5 on a verbatim content match, then
for each query word add 0.2 on a content hit and 0.3 on a path hit, then for
each query word with a truthy keyword-histogram count `n` add
`0.3 * min(n, 5) / 5`.  Scores are modelled in `ℚ`; every constant involved
is exactly representable and the sums stay well below any double-rounding
boundary observable through the comparisons the code performs. -/
def searchScoreCode (keywordsObj : List (Str × Nat)) (queryLower : Str)
    (queryWords : List Str) (filePath : Str) (fileData : FileRecord) : ℚ :=
  let contentLower := lowerStr fileData.content
  let pathLower := lowerStr filePath
  let s0 : ℚ := if isSubstr queryLower contentLower then 0 + 1/2 else 0
  let s1 := queryWords.foldl (fun acc w =>
    let acc := if isSubstr w contentLower then acc + 1/5 else acc
    if isSubstr w pathLower then acc + 3/10 else acc) s0
  queryWords.foldl (fun acc w =>
    match objGet keywordsObj w with
    | some n => if n ≠ 0 then acc + 3/10 * min (n : ℚ) 5 / 5 else acc
    | none => acc) s1

/-- `queryLower.split(/\s+/).filter(w => w.length > 2)`. -/
def queryWordsOf (queryLower : Str) : List Str :=
  (splitRuns isJsWs queryLower).filter fun w => 2 < w.length

/-- `IndexerQuery.search(query, { maxResults, minScore })`
(src/lib/indexer-query.js 435-483).  Defaults come from
`getDefaultConfig().search`: `maxResults = 10`, `minScore = 0.3`.  Files are
visited in the enumeration order of `db.files`; a file is kept when its raw
score reaches `minScore`, carrying the clamped score `min(score, 1)` and a
snippet; results are stable-sorted by descending (clamped) score and cut to
`maxResults`. -/
def search (db : QueryDb) (query : Str) (maxResults : Nat := 10)
    (minScore : ℚ := 3/10) : List SearchResult :=
  let queryLower := lowerStr query
  let queryWords := queryWordsOf queryLower
  let results := (jsEntries db.files).filterMap fun p =>
    let score := searchScoreCode ((objGet db.keywords p.1).getD []) queryLower
      queryWords p.1 p.2
    if minScore ≤ score then
      let snip := createSnippet p.2.content query 2
      some { filePath := p.1
             score := min score 1
             snippet := snip.snippet
             lineNumber := snip.lineNumber
             matchType := chars "content" }
    else none
  (sortDescBy (fun r => r.score) results).take maxResults

/-- The additive scoring formula as the specification states it: 0.5 for a
verbatim full-query content match, plus per query word (length > 2) 0.2 for a
content hit and 0.3 for a path hit, plus per query word
`0.3 * min(histogram count, 5) / 5` when the word is present in the file's
keyword histogram. -/
def claimScore (db : QueryDb) (query : Str) (filePath : Str)
    (fileData : FileRecord) : ℚ :=
  let queryLower := lowerStr query
  let queryWords := queryWordsOf queryLower
  let contentLower := lowerStr fileData.content
  let pathLower := lowerStr filePath
  let keywordsObj := (objGet db.keywords filePath).getD []
  (if isSubstr queryLower contentLower then (1/2 : ℚ) else 0) +
    (queryWords.map fun w =>
      (if isSubstr w contentLower then (1/5 : ℚ) else 0) +
        (if isSubstr w pathLower then (3/10 : ℚ) else 0)).sum +
    (queryWords.map fun w =>
      match objGet keywordsObj w with
      | some n => 3/10 * min (n : ℚ) 5 / 5
      | none => 0).sum

/-! Concrete fixtures used by the test-style statements below. -/

/-- A file whose content holds the query `alpha beta` verbatim (score 0.9 for
that query: 0.5 verbatim + 0.2 + 0.2 word hits). -/
def exRecordA : FileRecord where
  file_path := chars "a.txt"
  content := chars "alpha beta"
  hash := chars "h1"
  size := 10
  lines := 1
  extension := chars ".txt"
  modified_at := chars "m"
  indexed_at := chars "t"

/-- A second 0.9-scoring file. -/
def exRecordB : FileRecord := { exRecordA with file_path := chars "b.txt", hash := chars "h2" }

/-- A 0.4-scoring file (two word hits, no verbatim match). -/
def exRecordC : FileRecord :=
  { exRecordA with file_path := chars "c.txt", content := chars "alpha x beta", hash := chars "h3" }

/-- A 0-scoring file. -/
def exRecordD : FileRecord :=
  { exRecordA with file_path := chars "d.txt", content := chars "zzz", hash := chars "h4" }

/-- Query-side store holding files scoring 0.9, 0.9, 0.4 and 0 for the query
`alpha beta`. -/
def exampleSearchDb : QueryDb where
  files :=
    [(chars "a.txt", exRecordA), (chars "b.txt", exRecordB),
     (chars "c.txt", exRecordC), (chars "d.txt", exRecordD)]
  keywords := []
  metadata := []

/-- A store whose keyword map holds a path that its file map does not. -/
def strayKeywordDb : Database where
  files := []
  keywords := [(chars "a", [(chars "word", 1)])]
  metadata := []
  version := chars "1.0.0"

/-- A store holding exactly one indexed file, keyed consistently with its
record's `file_path`. -/
def oneFileDb : Database where
  files := [(chars "a.txt", exRecordA)]
  keywords := [(chars "a.txt", [(chars "alpha", 1)])]
  metadata := []
  version := chars "1.0.0"

/-! Helper lemmas about the object-map operations. -/

theorem objGet_objSet_self {β : Type} (l : List (Str × β)) (k : Str) (v : β) :
    objGet (objSet l k v) k = some v := by
  induction l with
  | nil => simp [objSet, objGet]
  | cons h t ih =>
    obtain ⟨k', v'⟩ := h
    by_cases hk : k' = k
    · simp [objSet, hk, objGet]
    · simp [objSet, hk, objGet, ih]

theorem objDelete_of_objGet_none {β : Type} (l : List (Str × β)) (k : Str)
    (h : objGet l k = none) : objDelete l k = l := by
  induction l with
  | nil => simp [objDelete]
  | cons hd t ih =>
    obtain ⟨k', v'⟩ := hd
    by_cases hk : k' = k
    · simp [objGet, hk] at h
    · simp only [objGet, hk, if_neg hk] at h
      simp [objDelete, hk, ih h]

theorem objGet_isSome_of_mem {β : Type} (l : List (Str × β)) (k : Str) (v : β)
    (h : (k, v) ∈ l) : (objGet l k).isSome := by
  induction l with
  | nil => simp at h
  | cons hd t ih =>
    obtain ⟨k', v'⟩ := hd
    rcases List.mem_cons.mp h with h1 | h1
    · obtain ⟨rfl, rfl⟩ := Prod.mk.injEq .. ▸ h1
      simp_all [objGet]
    · by_cases hk : k' = k
      · simp [objGet, hk]
      · simpa [objGet, hk] using ih h1

theorem objGet_none_of_not_mem_keys {β : Type} (l : List (Str × β)) (k : Str)
    (h : k ∉ l.map Prod.fst) : objGet l k = none := by
  induction l with
  | nil => simp [objGet]
  | cons hd t ih =>
    obtain ⟨k', v'⟩ := hd
    simp only [List.map_cons, List.mem_cons] at h
    push_neg at h
    have hk : k' ≠ k := fun hc => h.1 hc.symm
    simp [objGet, hk, ih h.2]

theorem mem_objDelete {β : Type} (l : List (Str × β)) (k : Str) (p : Str × β)
    (h : p ∈ objDelete l k) : p ∈ l := by
  induction l with
  | nil => simp [objDelete] at h
  | cons hd t ih =>
    obtain ⟨k', v'⟩ := hd
    by_cases hk : k' = k
    · simp only [objDelete, if_pos hk] at h
      exact List.mem_cons_of_mem _ h
    · simp only [objDelete, if_neg hk] at h
      rcases List.mem_cons.mp h with h1 | h1
      · exact h1 ▸ List.mem_cons_self _ _
      · exact List.mem_cons_of_mem _ (ih h1)

theorem objGet_objDelete_self_of_nodup {β : Type} (l : List (Str × β)) (k : Str)
    (h : (l.map Prod.fst).Nodup) : objGet (objDelete l k) k = none := by
  induction l with
  | nil => simp [objDelete, objGet]
  | cons hd t ih =>
    obtain ⟨k', v'⟩ := hd
    simp only [List.map_cons, List.nodup_cons] at h
    by_cases hk : k' = k
    · subst hk
      simp only [objDelete, if_pos rfl]
      exact objGet_none_of_not_mem_keys t k' h.1
    · simp [objDelete, hk, objGet, ih h.2]

theorem map_fst_objSet {β : Type} (l : List (Str × β)) (k : Str) (v : β) :
    (objSet l k v).map Prod.fst =
      if (objGet l k).isSome then l.map Prod.fst else l.map Prod.fst ++ [k] := by
  induction l with
  | nil => simp [objSet, objGet]
  | cons hd t ih =>
    obtain ⟨k', v'⟩ := hd
    by_cases hk : k' = k
    · simp [objSet, hk, objGet]
    · simp only [objSet, if_neg hk, List.map_cons, objGet, ih]
      by_cases hs : (objGet t k).isSome <;> simp [hs, hk]

theorem objGet_isSome_iff_mem_keys {β : Type} (l : List (Str × β)) (k : Str) :
    (objGet l k).isSome ↔ k ∈ l.map Prod.fst := by
  constructor
  · intro h
    by_contra hc
    rw [objGet_none_of_not_mem_keys l k hc] at h
    simp at h
  · intro h
    obtain ⟨p, hp, he⟩ := List.mem_map.mp h
    obtain ⟨k0, v0⟩ := p
    cases he
    exact objGet_isSome_of_mem l _ v0 hp

/-! Helper lemmas about enumeration order and the stable sorts. -/

theorem mem_insertAscNat {α : Type} (key : α → Nat) (x a : α) (l : List α) :
    a ∈ insertAscNat key x l ↔ a = x ∨ a ∈ l := by
  induction l with
  | nil => simp [insertAscNat]
  | cons y ys ih =>
    by_cases hk : key y ≤ key x
    · simp only [insertAscNat, if_pos hk, List.mem_cons, ih]
      tauto
    · simp only [insertAscNat, if_neg hk, List.mem_cons]

theorem mem_sortAscNat {α : Type} (key : α → Nat) (a : α) (l : List α) :
    a ∈ sortAscNat key l ↔ a ∈ l := by
  induction l with
  | nil => simp [sortAscNat]
  | cons x xs ih => simp [sortAscNat, mem_insertAscNat, ih]

theorem length_insertAscNat {α : Type} (key : α → Nat) (x : α) (l : List α) :
    (insertAscNat key x l).length = l.length + 1 := by
  induction l with
  | nil => simp [insertAscNat]
  | cons y ys ih =>
    by_cases hk : key y ≤ key x <;> simp [insertAscNat, hk, ih]

theorem length_sortAscNat {α : Type} (key : α → Nat) (l : List α) :
    (sortAscNat key l).length = l.length := by
  induction l with
  | nil => rfl
  | cons x xs ih => simp [sortAscNat, length_insertAscNat, ih]

theorem mem_jsEntries {β : Type} (l : List (Str × β)) (p : Str × β)
    (h : p ∈ jsEntries l) : p ∈ l := by
  rcases List.mem_append.mp h with h1 | h1
  · exact List.mem_of_mem_filter ((mem_sortAscNat _ p _).mp h1)
  · exact List.mem_of_mem_filter h1

theorem jsEntries_eq_self {β : Type} (l : List (Str × β))
    (h : ∀ p ∈ l, isArrayIndexKey p.1 = false) : jsEntries l = l := by
  have h1 : l.filter (fun p => isArrayIndexKey p.1) = [] :=
    List.filter_eq_nil_iff.mpr (by intro p hp; simp [h p hp])
  have h2 : l.filter (fun p => !isArrayIndexKey p.1) = l :=
    List.filter_eq_self.mpr (by intro p hp; simp [h p hp])
  simp [jsEntries, h1, h2, sortAscNat]

theorem length_jsEntries {β : Type} (l : List (Str × β)) :
    (jsEntries l).length = l.length := by
  simp only [jsEntries, List.length_append, length_sortAscNat]
  induction l with
  | nil => simp
  | cons a t ih =>
    by_cases ha : isArrayIndexKey a.1 <;> simp [List.filter_cons, ha] <;> omega

theorem mem_insertDescBy {α β : Type} [LinearOrder β] (key : α → β) (x a : α)
    (l : List α) : a ∈ insertDescBy key x l ↔ a = x ∨ a ∈ l := by
  induction l with
  | nil => simp [insertDescBy]
  | cons y ys ih =>
    by_cases hk : key x < key y
    · simp only [insertDescBy, if_pos hk, List.mem_cons, ih]
      tauto
    · simp only [insertDescBy, if_neg hk, List.mem_cons]

theorem mem_sortDescBy {α β : Type} [LinearOrder β] (key : α → β) (a : α)
    (l : List α) : a ∈ sortDescBy key l ↔ a ∈ l := by
  induction l with
  | nil => simp [sortDescBy]
  | cons x xs ih => simp [sortDescBy, mem_insertDescBy, ih]

theorem pairwise_insertDescBy {α β : Type} [LinearOrder β] (key : α → β) (x : α)
    (l : List α) (h : l.Pairwise fun a b => key b ≤ key a) :
    (insertDescBy key x l).Pairwise fun a b => key b ≤ key a := by
  induction l with
  | nil => simp [insertDescBy]
  | cons y ys ih =>
    rcases List.pairwise_cons.mp h with ⟨hy, hys⟩
    by_cases hk : key x < key y
    · simp only [insertDescBy, if_pos hk]
      refine List.pairwise_cons.mpr ⟨?_, ih hys⟩
      intro b hb
      rcases (mem_insertDescBy key x b ys).mp hb with rfl | hb2
      · exact le_of_lt hk
      · exact hy b hb2
    · simp only [insertDescBy, if_neg hk]
      refine List.pairwise_cons.mpr ⟨?_, h⟩
      intro b hb
      rcases List.mem_cons.mp hb with rfl | hb2
      · exact not_lt.mp hk
      · exact le_trans (hy b hb2) (not_lt.mp hk)

theorem pairwise_sortDescBy {α β : Type} [LinearOrder β] (key : α → β)
    (l : List α) : (sortDescBy key l).Pairwise fun a b => key b ≤ key a := by
  induction l with
  | nil => simp [sortDescBy]
  | cons x xs ih => exact pairwise_insertDescBy key x _ ih

theorem filter_insertDescBy {α β : Type} [LinearOrder β] (key : α → β) (x : α)
    (l : List α) (k : β) :
    (insertDescBy key x l).filter (fun a => key a = k) =
      if key x = k then x :: l.filter (fun a => key a = k)
      else l.filter (fun a => key a = k) := by
  induction l with
  | nil => by_cases hx : key x = k <;> simp [insertDescBy, hx]
  | cons y ys ih =>
    by_cases hk : key x < key y
    · simp only [insertDescBy, if_pos hk]
      by_cases hy : key y = k
      · have hx : ¬ key x = k := by
          intro hc
          exact absurd (hc.trans hy.symm ▸ hk) (lt_irrefl _)
        simp [List.filter_cons, hy, hx, ih]
      · simp [List.filter_cons, hy, ih]
    · simp only [insertDescBy, if_neg hk]
      by_cases hx : key x = k <;> simp [List.filter_cons, hx]

theorem filter_sortDescBy {α β : Type} [LinearOrder β] (key : α → β)
    (l : List α) (k : β) :
    (sortDescBy key l).filter (fun a => key a = k) =
      l.filter (fun a => key a = k) := by
  induction l with
  | nil => rfl
  | cons x xs ih =>
    simp only [sortDescBy, filter_insertDescBy, ih]
    by_cases hx : key x = k <;> simp [List.filter_cons, hx]

/-! Helper lemmas about the keyword pipeline. -/

theorem map_fst_bumpFreq (l : List (Str × Nat)) (w : Str) :
    (bumpFreq l w).map Prod.fst =
      if w ∈ l.map Prod.fst then l.map Prod.fst else l.map Prod.fst ++ [w] := by
  unfold bumpFreq
  rcases hg : objGet l w with _ | n
  · have hmem : w ∉ l.map Prod.fst := by
      intro hc
      have := (objGet_isSome_iff_mem_keys l w).mpr hc
      rw [hg] at this
      simp at this
    simp [hmem]
  · have hmem : w ∈ l.map Prod.fst := by
      apply (objGet_isSome_iff_mem_keys l w).mp
      rw [hg]
      rfl
    rw [map_fst_objSet, hg]
    simp [hmem]

theorem map_fst_foldl_bumpFreq (ws : List Str) :
    ∀ acc : List (Str × Nat),
      (ws.foldl bumpFreq acc).map Prod.fst =
        ws.foldl (fun ks w => if w ∈ ks then ks else ks ++ [w]) (acc.map Prod.fst) := by
  induction ws with
  | nil => intro acc; rfl
  | cons w ws ih =>
    intro acc
    simp only [List.foldl_cons]
    rw [ih, map_fst_bumpFreq]

theorem map_fst_buildFreq (ws : List Str) :
    (buildFreq ws).map Prod.fst = dedupFirstSeen ws := by
  simpa using map_fst_foldl_bumpFreq ws []

theorem mem_foldl_dedup (ws : List Str) :
    ∀ acc x, x ∈ ws.foldl (fun ks w => if w ∈ ks then ks else ks ++ [w]) acc →
      x ∈ acc ∨ x ∈ ws := by
  induction ws with
  | nil => intro acc x h; exact Or.inl h
  | cons w ws ih =>
    intro acc x h
    simp only [List.foldl_cons] at h
    rcases ih _ x h with h1 | h1
    · by_cases hw : w ∈ acc
      · rw [if_pos hw] at h1
        exact Or.inl h1
      · rw [if_neg hw] at h1
        rcases List.mem_append.mp h1 with h2 | h2
        · exact Or.inl h2
        · simp only [List.mem_singleton] at h2
          exact Or.inr (h2 ▸ List.mem_cons_self _ _)
    · exact Or.inr (List.mem_cons_of_mem _ h1)

theorem mem_dedupFirstSeen (ws : List Str) (x : Str) (h : x ∈ dedupFirstSeen ws) :
    x ∈ ws := by
  rcases mem_foldl_dedup ws [] x h with h1 | h1
  · simp at h1
  · exact h1

theorem mem_extractKeywords_key (text : Str) (p : Str × Nat)
    (h : p ∈ extractKeywords text) : p.1 ∈ tokenize text := by
  unfold extractKeywords at h
  have h1 := List.mem_of_mem_filter ((mem_sortDescBy _ p _).mp (List.take_subset _ _ h))
  have h2 := mem_jsEntries _ p h1
  have h3 : p.1 ∈ (buildFreq (tokenize text)).map Prod.fst :=
    List.mem_map.mpr ⟨p, h2, rfl⟩
  rw [map_fst_buildFreq] at h3
  exact mem_dedupFirstSeen _ _ h3

/-! Helper lemma rearranging an accumulating fold into a sum. -/

theorem foldl_add_eq_sum {α : Type} (body : ℚ → α → ℚ) (f : α → ℚ)
    (hbody : ∀ acc w, body acc w = acc + f w) (l : List α) :
    ∀ s : ℚ, l.foldl body s = s + (l.map f).sum := by
  induction l with
  | nil => intro s; simp
  | cons w ws ih =>
    intro s
    simp only [List.foldl_cons, List.map_cons, List.sum_cons]
    rw [hbody, ih, add_assoc]

/-! Helper lemmas for the extension-pattern branch of `matchGlob`. -/

theorem takeWhile_append_stop (p : Char → Bool) (l1 : Str) (c : Char) (l2 : Str)
    (h1 : ∀ a ∈ l1, p a = true) (hc : p c = false) :
    (l1 ++ c :: l2).takeWhile p = l1 := by
  induction l1 with
  | nil => simp [List.takeWhile_cons, hc]
  | cons a t ih =>
    have ha := h1 a (List.mem_cons_self _ _)
    simp only [List.cons_append, List.takeWhile_cons, ha]
    simp [ih fun b hb => h1 b (List.mem_cons_of_mem _ hb)]

theorem dropWhile_append_stop (p : Char → Bool) (l1 : Str) (c : Char) (l2 : Str)
    (h1 : ∀ a ∈ l1, p a = true) (hc : p c = false) :
    (l1 ++ c :: l2).dropWhile p = c :: l2 := by
  induction l1 with
  | nil => simp [List.dropWhile_cons, hc]
  | cons a t ih =>
    have ha := h1 a (List.mem_cons_self _ _)
    simp only [List.cons_append, List.dropWhile_cons, ha]
    simp [ih fun b hb => h1 b (List.mem_cons_of_mem _ hb)]

theorem lastChunkGo_no_sep (isSep : Char → Bool) (t : Str)
    (h : ∀ c ∈ t, isSep c = false) : ∀ acc, lastChunkGo isSep acc t = acc ++ t := by
  induction t with
  | nil => intro acc; simp [lastChunkGo]
  | cons c t ih =>
    intro acc
    have hc := h c (List.mem_cons_self _ _)
    simp only [lastChunkGo, hc, Bool.false_eq_true, if_false]
    rw [ih fun b hb => h b (List.mem_cons_of_mem _ hb)]
    simp

theorem extPatternCheck_ext (ext : Str) (hne : ext ≠ [])
    (hword : ∀ c ∈ ext, isWordChar c = true) :
    extPatternCheck (chars "**/*." ++ ext) = true := by
  have hrev : (chars "**/*." ++ ext).reverse = ext.reverse ++ '.' :: chars "*/**" := by
    rw [List.reverse_append]
    rfl
  have hwrev : ∀ c ∈ ext.reverse, isWordChar c = true := by
    intro c hc
    exact hword c (List.mem_reverse.mp hc)
  have hdot : isWordChar '.' = false := rfl
  unfold extPatternCheck
  rw [hrev, takeWhile_append_stop _ _ _ _ hwrev hdot,
    dropWhile_append_stop _ _ _ _ hwrev hdot]
  have hrr : ext.reverse.reverse = ext := List.reverse_reverse ext
  rw [hrr]
  have hne' : ext.isEmpty = false := by
    cases ext with
    | nil => exact absurd rfl hne
    | cons a t => rfl
  simp only [hne', Bool.not_false, Bool.true_and]
  rfl

theorem afterLastDot_ext (ext : Str) (hword : ∀ c ∈ ext, isWordChar c = true) :
    afterLastDot (chars "**/*." ++ ext) = ext := by
  have hnodot : ∀ c ∈ ext, decide (c = '.') = false := by
    intro c hc
    have := hword c hc
    by_contra hne
    simp only [Bool.not_eq_false, decide_eq_true_eq] at hne
    subst hne
    exact absurd this (by decide)
  have hpre : chars "**/*." ++ ext = '*' :: '*' :: '/' :: '*' :: '.' :: ext := rfl
  unfold afterLastDot lastChunk
  rw [hpre]
  simp only [lastChunkGo, decide_eq_true_eq, reduceIte, reduceCtorEq]
  simpa using lastChunkGo_no_sep _ ext hnodot []

/-! Helper lemmas for the query engine. -/

theorem score_folds_eq_sums (kw : List (Str × Nat)) (contentLower pathLower : Str)
    (ws : List Str) (b : ℚ) :
    ws.foldl (fun acc w =>
        match objGet kw w with
        | some n => if n ≠ 0 then acc + 3/10 * min (n : ℚ) 5 / 5 else acc
        | none => acc)
      (ws.foldl (fun acc w =>
        let acc := if isSubstr w contentLower then acc + 1/5 else acc
        if isSubstr w pathLower then acc + 3/10 else acc) b) =
    b + (ws.map fun w => (if isSubstr w contentLower then (1/5 : ℚ) else 0) +
          (if isSubstr w pathLower then (3/10 : ℚ) else 0)).sum +
      (ws.map fun w =>
        match objGet kw w with
        | some n => 3/10 * min (n : ℚ) 5 / 5
        | none => 0).sum := by
  have h1 := foldl_add_eq_sum
    (fun acc w =>
      let acc := if isSubstr w contentLower then acc + 1/5 else acc
      if isSubstr w pathLower then acc + 3/10 else acc)
    (fun w => (if isSubstr w contentLower then (1/5 : ℚ) else 0) +
      (if isSubstr w pathLower then (3/10 : ℚ) else 0))
    (by
      intro acc w
      by_cases hc : isSubstr w contentLower <;>
        by_cases hp : isSubstr w pathLower <;>
        simp [hc, hp] <;> ring)
    ws b
  have h2 := foldl_add_eq_sum
    (fun acc w =>
      match objGet kw w with
      | some n => if n ≠ 0 then acc + 3/10 * min (n : ℚ) 5 / 5 else acc
      | none => acc)
    (fun w =>
      match objGet kw w with
      | some n => 3/10 * min (n : ℚ) 5 / 5
      | none => 0)
    (by
      intro acc w
      rcases hg : objGet kw w with _ | n
      · simp [hg]
      · by_cases hn : n = 0
        · subst hn
          simp [hg]
        · simp [hg, hn])
    ws (ws.foldl (fun acc w =>
      let acc := if isSubstr w contentLower then acc + 1/5 else acc
      if isSubstr w pathLower then acc + 3/10 else acc) b)
  rw [h2, h1]

theorem searchScore_eq_claimScore (db : QueryDb) (query filePath : Str)
    (fileData : FileRecord) :
    searchScoreCode ((objGet db.keywords filePath).getD []) (lowerStr query)
        (queryWordsOf (lowerStr query)) filePath fileData =
      claimScore db query filePath fileData := by
  simp only [searchScoreCode, claimScore]
  rw [score_folds_eq_sums]
  by_cases h : isSubstr (lowerStr query) (lowerStr fileData.content) <;> simp [h]

theorem mem_search_elim (db : QueryDb) (query : Str) (maxResults : Nat)
    (minScore : ℚ) (r : SearchResult) (h : r ∈ search db query maxResults minScore) :
    ∃ p : Str × FileRecord, p ∈ db.files ∧ r.filePath = p.1 ∧
      minScore ≤ claimScore db query p.1 p.2 ∧
      r.score = min (claimScore db query p.1 p.2) 1 := by
  unfold search at h
  have h1 := (mem_sortDescBy _ r _).mp (List.take_subset _ _ h)
  obtain ⟨p, hp, hf⟩ := List.mem_filterMap.mp h1
  refine ⟨p, mem_jsEntries _ p hp, ?_⟩
  by_cases hsc : minScore ≤ searchScoreCode ((objGet db.keywords p.1).getD [])
      (lowerStr query) (queryWordsOf (lowerStr query)) p.1 p.2
  · rw [if_pos hsc] at hf
    rw [searchScore_eq_claimScore] at hsc
    cases hf
    exact ⟨rfl, hsc, by rw [← searchScore_eq_claimScore]⟩
  · rw [if_neg hsc] at hf
    cases hf

/-! Additional helper lemmas for the indexing pipeline. -/

theorem indexFile_unchanged_of_hash (hashFn : Str → Str) (now content : Str)
    (stats : Stats) (rel fp : Str) (db : Database) (r : FileRecord)
    (hget : objGet db.files rel = some r) (hh : r.hash = hashFn content) :
    indexFile hashFn now (.ok content) (.ok stats) rel fp db =
      (db, .unchanged rel, false) := by
  simp [indexFile, hget, hh]

theorem objGet_after_indexFile (hashFn : Str → Str) (now content : Str)
    (stats : Stats) (rel fp : Str) (db : Database) :
    ∃ r, objGet (indexFile hashFn now (.ok content) (.ok stats) rel fp db).1.files
        rel = some r ∧ r.hash = hashFn content := by
  unfold indexFile
  rcases hg : objGet db.files rel with _ | r
  · simp only [hg, Option.any]
    exact ⟨_, objGet_objSet_self _ _ _, rfl⟩
  · by_cases hh : r.hash = hashFn content
    · simp only [hg, Option.any, decide_eq_true_eq, hh, if_pos]
      exact ⟨r, rfl, hh⟩
    · simp only [hg, Option.any, decide_eq_true_eq, hh, if_neg, if_false]
      exact ⟨_, objGet_objSet_self _ _ _, rfl⟩

/-! The claims. -/

/-- C1: the claim states that in the general compilation branch `matchGlob`
treats `**` as "any sequence of characters", so that
`matchGlob("<dir>/node_modules/<rest>", "**/node_modules/**")` is true.  The
code does the opposite: the final `.replace(/\./g, '\\.')` runs after `**` has
been substituted by `.*`, turning it into `\.*` (a run of literal dots), so
the pattern only matches paths whose `**` positions hold nothing but dots, and
`src/node_modules/foo.js` is not matched.  The variant in
src/lib/utils-fix.js (whose final replacement is a no-op) behaves as the
claim states, which documents the intent. -/
theorem matchGlob_doublestar_bug :
    matchGlob (chars "src/node_modules/foo.js") (chars "**/node_modules/**") = false ∧
    globToRegex (chars "**/node_modules/**") = chars "\\.*/node_modules/\\.*" ∧
    matchGlob (chars "/node_modules/") (chars "**/node_modules/**") = true ∧
    matchGlobFix (chars "src/node_modules/foo.js") (chars "**/node_modules/**") = true := by
  decide

/-- C2: for a pattern of the exact shape `**/*.<ext>` (with `<ext>` a
nonempty run of word characters), `matchGlob` returns true exactly when the
final path segment ends with `.<ext>`; in particular `src/app.log` matches
`**/*.log` and `src/app.log/readme.txt` does not. -/
theorem matchGlob_extension_pattern :
    (∀ ext fp : Str, ext ≠ [] → (∀ c ∈ ext, isWordChar c = true) →
      matchGlob fp (chars "**/*." ++ ext) = endsWithStr ('.' :: ext) (lastSegment fp)) ∧
    matchGlob (chars "src/app.log") (chars "**/*.log") = true ∧
    matchGlob (chars "src/app.log/readme.txt") (chars "**/*.log") = false := by
  refine ⟨?_, by decide, by decide⟩
  intro ext fp hne hword
  unfold matchGlob
  rw [extPatternCheck_ext ext hne hword, afterLastDot_ext ext hword]
  simp

/-- Witness for C2 at `ext = "log"`, `fp = "x/y.log"`. -/
theorem matchGlob_extension_pattern_witness :
    matchGlob (chars "x/y.log") (chars "**/*." ++ chars "log") =
      endsWithStr ('.' :: chars "log") (lastSegment (chars "x/y.log")) :=
  matchGlob_extension_pattern.1 (chars "log") (chars "x/y.log") (by decide) (by decide)

/-- C3: when the store already holds a record for the relative path with the
same content hash, `indexFile` returns `unchanged`, leaves the in-memory
database untouched, and does not save; in particular a second consecutive
`indexFile` call on an unchanged file does exactly that. -/
theorem indexFile_unchanged_idempotent :
    (∀ (hashFn : Str → Str) (now content : Str) (stats : Stats) (rel fp : Str)
        (db : Database) (r : FileRecord),
      objGet db.files rel = some r → r.hash = hashFn content →
        indexFile hashFn now (.ok content) (.ok stats) rel fp db =
          (db, .unchanged rel, false)) ∧
    (∀ (hashFn : Str → Str) (now1 now2 content : Str) (stats : Stats)
        (rel fp : Str) (db : Database),
      indexFile hashFn now2 (.ok content) (.ok stats) rel fp
          (indexFile hashFn now1 (.ok content) (.ok stats) rel fp db).1 =
        ((indexFile hashFn now1 (.ok content) (.ok stats) rel fp db).1,
          .unchanged rel, false)) := by
  constructor
  · intro hashFn now content stats rel fp db r hget hh
    exact indexFile_unchanged_of_hash hashFn now content stats rel fp db r hget hh
  · intro hashFn now1 now2 content stats rel fp db
    obtain ⟨r, hget, hh⟩ :=
      objGet_after_indexFile hashFn now1 content stats rel fp db
    exact indexFile_unchanged_of_hash hashFn now2 content stats rel fp _ r hget hh

/-- Witness for C3 on a one-file store whose record hash matches. -/
theorem indexFile_unchanged_idempotent_witness :
    indexFile (fun _ => chars "h1") (chars "now") (.ok (chars "c"))
        (.ok ⟨1, chars "m"⟩) (chars "a.txt") (chars "/p/a.txt") oneFileDb =
      (oneFileDb, .unchanged (chars "a.txt"), false) :=
  indexFile_unchanged_idempotent.1 (fun _ => chars "h1") (chars "now") (chars "c")
    ⟨1, chars "m"⟩ (chars "a.txt") (chars "/p/a.txt") oneFileDb exRecordA
    (by decide) rfl

/-- C7: when the content read fails, `indexFile` returns `error` with the
cause's message, leaves the database exactly as before (files and keywords
included) and does not save. -/
theorem indexFile_read_error_no_mutation :
    ∀ (hashFn : Str → Str) (now e : Str) (statsResult : Except Str Stats)
      (rel fp : Str) (db : Database),
      indexFile hashFn now (.error e) statsResult rel fp db =
        (db, .error fp e, false) := by
  intro hashFn now e statsResult rel fp db
  rfl

/-- C8 counterexample: on a store whose keyword map holds a path absent from
the file map, `removeFile` reports "did not exist" and does not save, yet it
does mutate the in-memory store (it deletes the stray keyword entry), so
"no store mutation" does not hold for every store state. -/
theorem removeFile_stray_keyword_counterexample :
    (removeFile (chars "a") strayKeywordDb).2.1 = false ∧
    (removeFile (chars "a") strayKeywordDb).2.2 = false ∧
    (removeFile (chars "a") strayKeywordDb).1 ≠ strayKeywordDb := by
  decide

/-- C8 (amended): on a path with no file record, `removeFile` returns false
and does not save, and leaves the store unchanged provided the keyword map
also lacks the path (as every store maintained by `indexFile`/`removeFile`
does); on a path with a record (keys being unique as in a JS object), it
returns true, saves, removes the record, and the path is gone from
`getAllFiles`. -/
theorem removeFile_spec :
    (∀ (rel : Str) (db : Database),
      objGet db.files rel = none → objGet db.keywords rel = none →
        removeFile rel db = (db, false, false)) ∧
    (∀ (rel : Str) (db : Database) (r : FileRecord),
      objGet db.files rel = some r → (db.files.map Prod.fst).Nodup →
        (removeFile rel db).2.1 = true ∧ (removeFile rel db).2.2 = true ∧
        objGet (removeFile rel db).1.files rel = none ∧
        ((∀ p ∈ db.files, p.2.file_path = p.1) →
          ∀ rec ∈ getAllFiles (removeFile rel db).1, rec.file_path ≠ rel)) := by
  constructor
  · intro rel db hf hk
    unfold removeFile
    rw [objDelete_of_objGet_none _ _ hf, objDelete_of_objGet_none _ _ hk, hf]
    rfl
  · intro rel db r hget hnd
    refine ⟨by simp [removeFile, hget], by simp [removeFile, hget],
      objGet_objDelete_self_of_nodup _ _ hnd, ?_⟩
    intro hwf rec hrec
    unfold getAllFiles removeFile at hrec
    obtain ⟨p, hp, hpe⟩ := List.mem_map.mp hrec
    have hpdel : p ∈ objDelete db.files rel := mem_jsEntries _ p hp
    have hpdb : p ∈ db.files := mem_objDelete _ _ p hpdel
    intro hcontra
    have hkey : p.1 = rel := by rw [← hwf p hpdb, hpe, hcontra]
    have hpdel' : (rel, p.2) ∈ objDelete db.files rel := by
      have hp2 : (p.1, p.2) ∈ objDelete db.files rel := by simpa using hpdel
      rw [hkey] at hp2
      exact hp2
    have : (objGet (objDelete db.files rel) rel).isSome :=
      objGet_isSome_of_mem _ _ _ hpdel'
    rw [objGet_objDelete_self_of_nodup _ _ hnd] at this
    simp at this

/-- Witness for C8 on a one-file store. -/
theorem removeFile_spec_witness :
    (removeFile (chars "a.txt") oneFileDb).2.1 = true ∧
    objGet (removeFile (chars "a.txt") oneFileDb).1.files (chars "a.txt") = none := by
  have h := removeFile_spec.2 (chars "a.txt") oneFileDb exRecordA (by decide) (by decide)
  exact ⟨h.1, h.2.2.1⟩

/-- C9: a missing, unreadable, or unparseable store document loads as the
empty database (empty files, keywords and metadata maps) on both the indexer
and the query sides, and indexing a fresh file on the empty store proceeds
normally (it reports `indexed`). -/
theorem loadDatabase_failure_empty :
    (∀ (readResult : Except Str Str) (parse : Str → Except Str Database),
      loadDatabaseCore false readResult parse = emptyDbCore) ∧
    (∀ (e : Str) (parse : Str → Except Str Database),
      loadDatabaseCore true (.error e) parse = emptyDbCore) ∧
    (∀ (data e : Str) (parse : Str → Except Str Database),
      parse data = .error e → loadDatabaseCore true (.ok data) parse = emptyDbCore) ∧
    (∀ (readResult : Except Str Str) (parse : Str → Except Str QueryDb),
      loadDatabaseQuery false readResult parse = emptyDbQuery) ∧
    (∀ (e : Str) (parse : Str → Except Str QueryDb),
      loadDatabaseQuery true (.error e) parse = emptyDbQuery) ∧
    (∀ (data e : Str) (parse : Str → Except Str QueryDb),
      parse data = .error e → loadDatabaseQuery true (.ok data) parse = emptyDbQuery) ∧
    (emptyDbCore.files = [] ∧ emptyDbCore.keywords = [] ∧
      emptyDbCore.metadata = [] ∧ emptyDbQuery.files = [] ∧
      emptyDbQuery.keywords = [] ∧ emptyDbQuery.metadata = []) ∧
    (∀ (hashFn : Str → Str) (now content : Str) (stats : Stats) (rel fp : Str),
      (indexFile hashFn now (.ok content) (.ok stats) rel fp emptyDbCore).2.1 =
        .indexed rel stats.size) := by
  refine ⟨fun _ _ => rfl, fun _ _ => rfl, ?_, fun _ _ => rfl, fun _ _ => rfl, ?_,
    ⟨rfl, rfl, rfl, rfl, rfl, rfl⟩, ?_⟩
  · intro data e parse hp
    simp [loadDatabaseCore, hp]
  · intro data e parse hp
    simp [loadDatabaseQuery, hp]
  · intro hashFn now content stats rel fp
    simp [indexFile, emptyDbCore, objGet, Option.any]

/-- Witness for C9 with a parser that rejects its input. -/
theorem loadDatabase_failure_empty_witness :
    loadDatabaseCore true (.ok (chars "nonsense"))
      (fun _ => .error (chars "bad json")) = emptyDbCore :=
  loadDatabase_failure_empty.2.2.1 (chars "nonsense") (chars "bad json")
    (fun _ => .error (chars "bad json")) rfl

/-- C10: `shouldIndexFile` answers true only when the file's stats could be
read and the size is at most `maxFileSize`; an oversized file or one whose
stats cannot be read is rejected regardless of the pattern checks, and the
default `maxFileSize` is 5242880 bytes. -/
theorem shouldIndexFile_size_gate :
    (∀ (statsResult : Option Stats) (fp : Str) (cfg : ProjectConfig),
      shouldIndexFile statsResult fp cfg = true →
        ∃ s, statsResult = some s ∧ s.size ≤ cfg.maxFileSize) ∧
    (∀ (s : Stats) (fp : Str) (cfg : ProjectConfig),
      cfg.maxFileSize < s.size → shouldIndexFile (some s) fp cfg = false) ∧
    (∀ (fp : Str) (cfg : ProjectConfig), shouldIndexFile none fp cfg = false) ∧
    defaultProjectConfig.maxFileSize = 5242880 := by
  refine ⟨?_, ?_, ?_, rfl⟩
  · intro statsResult fp cfg h
    rcases statsResult with _ | s
    · exfalso
      simp only [shouldIndexFile, ite_self] at h
      cases h
    · refine ⟨s, rfl, ?_⟩
      simp only [shouldIndexFile] at h
      split at h
      · cases h
      · split at h
        · cases h
        · split at h
          · exact of_decide_eq_true h
          · cases h
  · intro s fp cfg hlt
    have hx : decide (s.size ≤ cfg.maxFileSize) = false := by
      simp only [decide_eq_false_iff_not, not_le]
      exact hlt
    simp only [shouldIndexFile, hx, ite_self]
  · intro fp cfg
    simp only [shouldIndexFile, ite_self]

/-- Witness for C10: a 5242881-byte file is rejected under the default
configuration. -/
theorem shouldIndexFile_size_gate_witness :
    shouldIndexFile (some ⟨5242881, chars "m"⟩) (chars "src/a.js")
      defaultProjectConfig = false :=
  shouldIndexFile_size_gate.2.1 ⟨5242881, chars "m"⟩ (chars "src/a.js")
    defaultProjectConfig (by decide)

/-- C4: every search result's file was scored by the additive formula of the
specification — 0.5 for a verbatim content match of the whole query, plus
0.2/0.3 per content/path hit of each query word of length > 2, plus
`0.3 * min(histogram count, 5) / 5` per histogram hit — and carries that sum
clamped above at 1; the loop accumulation of the code equals that formula for
every store, query and file. -/
theorem search_score_formula :
    (∀ (db : QueryDb) (query : Str) (maxResults : Nat) (minScore : ℚ)
        (r : SearchResult), r ∈ search db query maxResults minScore →
      ∃ p : Str × FileRecord, p ∈ db.files ∧ r.filePath = p.1 ∧
        minScore ≤ claimScore db query p.1 p.2 ∧
        r.score = min (claimScore db query p.1 p.2) 1) ∧
    (∀ (db : QueryDb) (query fp : Str) (fd : FileRecord),
      searchScoreCode ((objGet db.keywords fp).getD []) (lowerStr query)
          (queryWordsOf (lowerStr query)) fp fd = claimScore db query fp fd) :=
  ⟨mem_search_elim, searchScore_eq_claimScore⟩

unseal Rat.add Rat.mul Rat.inv in
/-- Witness for C4 on the result for `a.txt` of a concrete search. -/
theorem search_score_formula_witness :
    ∃ p : Str × FileRecord, p ∈ exampleSearchDb.files ∧
      ({ filePath := chars "a.txt", score := 9/10, snippet := chars "alpha beta",
         lineNumber := 1, matchType := chars "content" } : SearchResult).filePath = p.1 ∧
      (3/10 : ℚ) ≤ claimScore exampleSearchDb (chars "alpha beta") p.1 p.2 ∧
      ({ filePath := chars "a.txt", score := 9/10, snippet := chars "alpha beta",
         lineNumber := 1, matchType := chars "content" } : SearchResult).score =
        min (claimScore exampleSearchDb (chars "alpha beta") p.1 p.2) 1 :=
  search_score_formula.1 exampleSearchDb (chars "alpha beta") 2 (3/10)
    { filePath := chars "a.txt", score := 9/10, snippet := chars "alpha beta",
      lineNumber := 1, matchType := chars "content" } (by decide)

unseal Rat.add Rat.mul Rat.inv in
/-- C5: search returns at most `maxResults` results, sorted by descending
(reported) score, and only for files whose raw score reaches `minScore`; on
the store with files scoring 0.9, 0.9, 0.4 and 0 for the query `alpha beta`,
`maxResults = 2` returns exactly the two 0.9-scored files, and even with room
(`maxResults = 10`) the below-threshold file never appears. -/
theorem search_ordering_truncation :
    (∀ (db : QueryDb) (query : Str) (maxResults : Nat) (minScore : ℚ),
      (search db query maxResults minScore).length ≤ maxResults) ∧
    (∀ (db : QueryDb) (query : Str) (maxResults : Nat) (minScore : ℚ),
      (search db query maxResults minScore).Pairwise fun a b => b.score ≤ a.score) ∧
    (∀ (db : QueryDb) (query : Str) (maxResults : Nat) (minScore : ℚ)
        (r : SearchResult), r ∈ search db query maxResults minScore →
      ∃ p : Str × FileRecord, p ∈ db.files ∧ r.filePath = p.1 ∧
        minScore ≤ claimScore db query p.1 p.2) ∧
    search exampleSearchDb (chars "alpha beta") 2 (3/10) =
      [{ filePath := chars "a.txt", score := 9/10, snippet := chars "alpha beta",
         lineNumber := 1, matchType := chars "content" },
       { filePath := chars "b.txt", score := 9/10, snippet := chars "alpha beta",
         lineNumber := 1, matchType := chars "content" }] ∧
    search exampleSearchDb (chars "alpha beta") 10 (3/10) =
      [{ filePath := chars "a.txt", score := 9/10, snippet := chars "alpha beta",
         lineNumber := 1, matchType := chars "content" },
       { filePath := chars "b.txt", score := 9/10, snippet := chars "alpha beta",
         lineNumber := 1, matchType := chars "content" },
       { filePath := chars "c.txt", score := 2/5, snippet := chars "alpha x beta",
         lineNumber := 1, matchType := chars "content" }] := by
  refine ⟨?_, ?_, ?_, by decide, by decide⟩
  · intro db query maxResults minScore
    simp only [search]
    exact List.length_take_le _ _
  · intro db query maxResults minScore
    simp only [search]
    exact List.Pairwise.sublist (List.take_sublist _ _)
      (pairwise_sortDescBy (fun r : SearchResult => r.score) _)
  · intro db query maxResults minScore r h
    obtain ⟨p, hp, hfp, hsc, _⟩ := mem_search_elim db query maxResults minScore r h
    exact ⟨p, hp, hfp, hsc⟩

unseal Rat.add Rat.mul Rat.inv in
/-- Witness for C5 on the result for `c.txt` of a concrete search. -/
theorem search_ordering_truncation_witness :
    ∃ p : Str × FileRecord, p ∈ exampleSearchDb.files ∧
      ({ filePath := chars "c.txt", score := 2/5, snippet := chars "alpha x beta",
         lineNumber := 1, matchType := chars "content" } : SearchResult).filePath = p.1 ∧
      (3/10 : ℚ) ≤ claimScore exampleSearchDb (chars "alpha beta") p.1 p.2 :=
  search_ordering_truncation.2.2.1 exampleSearchDb (chars "alpha beta") 10 (3/10)
    { filePath := chars "c.txt", score := 2/5, snippet := chars "alpha x beta",
      lineNumber := 1, matchType := chars "content" } (by decide)

/-- C6 counterexample: for the text `9999 1111` both extracted keywords have
frequency 1 (a tie) and the first-seen order is `9999` then `1111`, yet
`extractKeywords` returns `1111` first: ECMAScript objects enumerate
canonical array-index keys (all-digit strings) first, in ascending numeric
order, before insertion order applies, so the tie is not broken by
first-seen order. -/
theorem extractKeywords_numeric_tie_counterexample :
    extractKeywords (chars "9999 1111") = [(chars "1111", 1), (chars "9999", 1)] ∧
    dedupFirstSeen (tokenize (chars "9999 1111")) = [chars "9999", chars "1111"] := by
  decide

/-- C6 (amended): `extractKeywords` returns at most 20 keywords in
descending-frequency order, deterministically; when no extracted word is a
canonical array-index numeral, the object's enumeration order is its
construction order and keywords of equal frequency appear in first-seen
order (each frequency class is a subsequence of the first-seen order of the
text's words); all-digit words are instead hoisted to the front of the
frequency object in ascending numeric order, which can break the first-seen
tie order. -/
theorem extractKeywords_order :
    ∀ text : Str,
      (jsEntries (extractKeywords text)).length ≤ 20 ∧
      (extractKeywords text).Pairwise (fun a b => b.2 ≤ a.2) ∧
      ((∀ w ∈ tokenize text, isArrayIndexKey w = false) →
        jsEntries (extractKeywords text) = extractKeywords text ∧
        ∀ k : Nat, List.Sublist
          (((extractKeywords text).filter fun p => p.2 = k).map Prod.fst)
          (dedupFirstSeen (tokenize text))) := by
  intro text
  refine ⟨?_, ?_, ?_⟩
  · rw [length_jsEntries]
    simp only [extractKeywords]
    exact List.length_take_le _ _
  · simp only [extractKeywords]
    exact List.Pairwise.sublist (List.take_sublist _ _)
      (pairwise_sortDescBy (fun p : Str × Nat => p.2) _)
  · intro hnum
    have hkeys : ∀ p ∈ extractKeywords text, isArrayIndexKey p.1 = false :=
      fun p hp => hnum p.1 (mem_extractKeywords_key text p hp)
    refine ⟨jsEntries_eq_self _ hkeys, ?_⟩
    intro k
    have hfreqkeys : ∀ p ∈ buildFreq (tokenize text), isArrayIndexKey p.1 = false := by
      intro p hp
      apply hnum
      have hmem : p.1 ∈ (buildFreq (tokenize text)).map Prod.fst :=
        List.mem_map.mpr ⟨p, hp, rfl⟩
      rw [map_fst_buildFreq] at hmem
      exact mem_dedupFirstSeen _ _ hmem
    have hje : jsEntries (buildFreq (tokenize text)) = buildFreq (tokenize text) :=
      jsEntries_eq_self _ hfreqkeys
    simp only [extractKeywords, hje]
    have h1 : List.Sublist
        (((sortDescBy (fun p : Str × Nat => p.2)
          ((buildFreq (tokenize text)).filter fun p => !stopWords.contains p.1)).take
          20).filter fun p => p.2 = k)
        ((sortDescBy (fun p : Str × Nat => p.2)
          ((buildFreq (tokenize text)).filter fun p => !stopWords.contains p.1)).filter
          fun p => p.2 = k) :=
      List.Sublist.filter _ (List.take_sublist _ _)
    rw [filter_sortDescBy] at h1
    have h2 : List.Sublist
        ((((buildFreq (tokenize text)).filter
          fun p => !stopWords.contains p.1).filter fun p => p.2 = k))
        (buildFreq (tokenize text)) :=
      (List.filter_sublist _).trans (List.filter_sublist _)
    have h3 := (h1.trans h2).map Prod.fst
    rw [map_fst_buildFreq] at h3
    exact h3

/-- Witness for C6 on a text with no numeral words. -/
theorem extractKeywords_order_witness :
    jsEntries (extractKeywords (chars "alpha beta alpha")) =
      extractKeywords (chars "alpha beta alpha") ∧
    List.Sublist
      (((extractKeywords (chars "alpha beta alpha")).filter fun p => p.2 = 1).map
        Prod.fst) (dedupFirstSeen (tokenize (chars "alpha beta alpha"))) := by
  have h := (extractKeywords_order (chars "alpha beta alpha")).2.2 (by decide)
  exact ⟨h.1, h.2 1⟩

end CodebaseIndexer
